import Mathlib

/-!
Verification of the sweet-shop backend (FastAPI + MongoDB with an in-process
fallback store). The definitions below are a shallow embedding of the Python
source under `backend/`: each route handler becomes a pure function from the
relevant store state (a list of records) and its arguments to a response
together with the post-state. Python dict records become structures, Python
floats become rationals (only compared, never combined arithmetically, so
ordering on representable values is faithful), Python ints become `Int`,
and `raise HTTPException` becomes an error result carrying status and detail.
Where a handler has two branches (primary MongoDB path and in-memory fallback
path) with different logic, both are embedded, suffixed `_mongo` and
`_fallback`.
-/

/-- An HTTP error response: `raise HTTPException(status_code, detail)`. -/
structure HTTPError where
  status : Nat
  detail : String
deriving Repr, DecidableEq

/-- Result of a route handler: either a value or an HTTP error. -/
inductive ApiResult (α : Type) where
  | ok (val : α)
  | err (e : HTTPError)
deriving Repr, DecidableEq

/-- The body of the `Sweet` pydantic model (`backend/models/sweet.py`):
exactly the fields of `sweet.model_dump()`. -/
structure SweetData where
  name : String
  category : String
  price : Rat
  quantity : Int
  image_url : String
deriving Repr, DecidableEq

/-- A stored product record: the `Sweet` fields plus the public string `id`
assigned at creation (`sweet_dict["id"]`). -/
structure SweetRec where
  name : String
  category : String
  price : Rat
  quantity : Int
  image_url : String
  id : String
deriving Repr, DecidableEq

/-- `target.update(update_data.model_dump())`: replace the `Sweet`-model
fields of a record by `d`, keeping the `id` key untouched. -/
def applyData (d : SweetData) (r : SweetRec) : SweetRec :=
  { name := d.name, category := d.category, price := d.price,
    quantity := d.quantity, image_url := d.image_url, id := r.id }

/-- Mutate in place the first record satisfying `p`, as Python's
`next((s for s in store if p s), None)` followed by a mutation of the found
dict does; all later records are untouched. -/
def modifyFirst (p : SweetRec → Bool) (f : SweetRec → SweetRec) :
    List SweetRec → List SweetRec
  | [] => []
  | r :: rest => if p r then f r :: rest else r :: modifyFirst p f rest

/-- `listPrefixEq a b`: the character list `a` is an initial segment of `b`. -/
def listPrefixEq : List Char → List Char → Bool
  | [], _ => true
  | _ :: _, [] => false
  | a :: as, b :: bs => a == b && listPrefixEq as bs

/-- `listOccurs needle hay`: `needle` occurs contiguously inside `hay`. -/
def listOccurs (needle : List Char) : List Char → Bool
  | [] => listPrefixEq needle []
  | c :: rest => listPrefixEq needle (c :: rest) || listOccurs needle rest

/-- Python's substring test `needle in hay` on strings. -/
def strOccurs (needle hay : String) : Bool :=
  listOccurs needle.data hay.data

/- ===================== Catalog routes (`backend/routes/sweets.py`) ========= -/

/-- `add_sweet`, fallback branch: reject a duplicate `name`, otherwise append
a record whose id is `str(len(_fake_sweets) + 1)`. -/
def add_sweet_fallback (s : List SweetRec) (sweet : SweetData) :
    ApiResult SweetRec × List SweetRec :=
  match s.find? (fun r => r.name == sweet.name) with
  | some _ => (.err ⟨400, "Sweet already exists"⟩, s)
  | none =>
    let newRec : SweetRec :=
      { name := sweet.name, category := sweet.category, price := sweet.price,
        quantity := sweet.quantity, image_url := sweet.image_url,
        id := toString (s.length + 1) }
    (.ok newRec, s ++ [newRec])

/-- `list_sweets`, fallback branch: `list(_fake_sweets)`. -/
def list_sweets_fallback (s : List SweetRec) : List SweetRec := s

/-- `search_sweets`, fallback branch (lines 184-202): conjunction of the
name (case-insensitive substring, only when the argument is truthy),
category (exact, when not `None`) and inclusive price-bound filters
(when not `None`). -/
def search_sweets_fallback (s : List SweetRec) (name category : Option String)
    (min_price max_price : Option Rat) : List SweetRec :=
  s.filter (fun sweet =>
    let name_match := match name with
      | none => true
      | some n => if n == "" then true
                  else strOccurs n.toLower sweet.name.toLower
    let cat_match := match category with
      | none => true
      | some c => sweet.category == c
    let price_ok :=
      (match min_price with
        | none => true
        | some mn => decide (mn ≤ sweet.price)) &&
      (match max_price with
        | none => true
        | some mx => decide (sweet.price ≤ mx))
    name_match && cat_match && price_ok)

/-- The MongoDB query built by `search_sweets` (lines 156-172). A filter key
is added only when the corresponding Python value is truthy: an absent or
empty `name`/`category` adds nothing, and a price bound of `0` is dropped by
`if min_price:` / `if max_price:`. -/
structure MongoQuery where
  nameRegex : Option String
  category : Option String
  gte : Option Rat
  lte : Option Rat
deriving Repr, DecidableEq

/-- Truthiness of an optional float, as Python `if x:` sees it. -/
def truthyRat : Option Rat → Bool
  | none => false
  | some x => x != 0

/-- Truthiness of an optional string, as Python `if x:` sees it. -/
def truthyStr : Option String → Bool
  | none => false
  | some x => x != ""

/-- Build the query dict of `search_sweets` (lines 156-172). -/
def buildQuery (name category : Option String)
    (min_price max_price : Option Rat) : MongoQuery :=
  { nameRegex := if truthyStr name then name else none
    category := if truthyStr category then category else none
    gte := if truthyRat min_price || truthyRat max_price then
             (if truthyRat min_price then min_price else none) else none
    lte := if truthyRat min_price || truthyRat max_price then
             (if truthyRat max_price then max_price else none) else none }

/-- Evaluate a `MongoQuery` over the collection, as `sweets.find(query)`
does. The case-insensitive `$regex` engine is external to the repository,
so it is a parameter `regexMatchI pat text`. -/
def mongoFind (regexMatchI : String → String → Bool)
    (docs : List SweetRec) (q : MongoQuery) : List SweetRec :=
  docs.filter (fun d =>
    (match q.nameRegex with
      | none => true
      | some pat => regexMatchI pat d.name) &&
    (match q.category with
      | none => true
      | some c => d.category == c) &&
    (match q.gte with
      | none => true
      | some mn => decide (mn ≤ d.price)) &&
    (match q.lte with
      | none => true
      | some mx => decide (d.price ≤ mx)))

/-- `search_sweets`, primary (MongoDB) branch: build the query dict and run
`find` with it. -/
def search_sweets_mongo (regexMatchI : String → String → Bool)
    (docs : List SweetRec) (name category : Option String)
    (min_price max_price : Option Rat) : List SweetRec :=
  mongoFind regexMatchI docs (buildQuery name category min_price max_price)

/-- `update_sweet`, fallback branch (lines 252-258): find the record whose
`id` equals `sweet_id`; 404 when absent, else overwrite the `Sweet`-model
fields with `update_data.model_dump()`. -/
def update_sweet_fallback (s : List SweetRec) (sweet_id : String)
    (update_data : SweetData) : ApiResult String × List SweetRec :=
  match s.find? (fun r => r.id == sweet_id) with
  | none => (.err ⟨404, "Sweet not found"⟩, s)
  | some _ => (.ok "Updated successfully",
               modifyFirst (fun r => r.id == sweet_id) (applyData update_data) s)

/-- `update_sweet`, primary branch (lines 234-245): `update_one` with a
`$set` of the full model dump; MongoDB reports `modified_count = 0` both
when no document matches and when the matched document already equals the
new values, and the handler answers 404 in either case. -/
def update_sweet_mongo (docs : List SweetRec) (sweet_id : String)
    (update_data : SweetData) : ApiResult String × List SweetRec :=
  match docs.find? (fun r => r.id == sweet_id) with
  | none => (.err ⟨404, "Sweet not found"⟩, docs)
  | some sw =>
    if applyData update_data sw == sw then
      (.err ⟨404, "Sweet not found"⟩, docs)
    else
      (.ok "Updated successfully",
       modifyFirst (fun r => r.id == sweet_id) (applyData update_data) docs)

/-- `delete_sweet`, fallback branch (lines 288-313): admin check, then
remove every record with the given id; 404 when the length is unchanged. -/
def delete_sweet_fallback (role : String) (s : List SweetRec)
    (sweet_id : String) : ApiResult String × List SweetRec :=
  if role != "admin" then (.err ⟨403, "Only admins can delete sweets"⟩, s)
  else
    let remaining := s.filter (fun r => r.id != sweet_id)
    if remaining.length == s.length then (.err ⟨404, "Sweet not found"⟩, s)
    else (.ok "Deleted successfully", remaining)

/-- `purchase_sweet` (lines 338-370): find the record by id (404 when
absent), reject with 400 when its quantity is at most 0, otherwise decrement
the quantity by exactly 1. The primary and fallback branches perform the
same find / stock check / decrement sequence on their respective stores. -/
def purchase_sweet (s : List SweetRec) (sweet_id : String) :
    ApiResult String × List SweetRec :=
  match s.find? (fun r => r.id == sweet_id) with
  | none => (.err ⟨404, "Sweet not found"⟩, s)
  | some sw =>
    if sw.quantity ≤ 0 then (.err ⟨400, "Out of stock"⟩, s)
    else (.ok "Purchased successfully",
          modifyFirst (fun r => r.id == sweet_id)
            (fun r => { r with quantity := r.quantity - 1 }) s)

/-- `restock_sweet`, primary branch (lines 403-417 and 427): admin check,
positivity check on `quantity`, then a bare `update_one` with `$inc`; no
existence check is made, so an id matching no document leaves the store
unchanged and still answers the success message. -/
def restock_sweet_mongo (role : String) (docs : List SweetRec)
    (sweet_id : String) (quantity : Int) : ApiResult String × List SweetRec :=
  if role != "admin" then (.err ⟨403, "Only admins can restock sweets"⟩, docs)
  else if quantity ≤ 0 then (.err ⟨400, "Quantity must be positive"⟩, docs)
  else (.ok ("Restocked " ++ toString quantity ++ " units successfully"),
        modifyFirst (fun r => r.id == sweet_id)
          (fun r => { r with quantity := r.quantity + quantity }) docs)

/-- `restock_sweet`, fallback branch (lines 420-427): same admin and
positivity checks, then an explicit find (404 when absent) before adding
`quantity` to the stock of the found record. -/
def restock_sweet_fallback (role : String) (s : List SweetRec)
    (sweet_id : String) (quantity : Int) : ApiResult String × List SweetRec :=
  if role != "admin" then (.err ⟨403, "Only admins can restock sweets"⟩, s)
  else if quantity ≤ 0 then (.err ⟨400, "Quantity must be positive"⟩, s)
  else match s.find? (fun r => r.id == sweet_id) with
    | none => (.err ⟨404, "Sweet not found"⟩, s)
    | some _ => (.ok ("Restocked " ++ toString quantity ++ " units successfully"),
                 modifyFirst (fun r => r.id == sweet_id)
                   (fun r => { r with quantity := r.quantity + quantity }) s)

/- ===================== Auth (`backend/routes/auth.py`, `backend/utils/auth.py`) == -/

/-- A stored user record: the dict built by `register` (email, password
hash, role, and the `_id` assigned at creation). -/
structure UserRec where
  email : String
  hashed_password : String
  role : String
  oid : String
deriving Repr, DecidableEq

/-- The claims carried by a JWT as issued or decoded here: optional `sub`
and `role`, and an absolute `exp` in seconds. -/
structure JwtPayload where
  sub : Option String
  role : Option String
  exp : Int
deriving Repr, DecidableEq

/-- A signed token: its payload together with the key it was signed with
(signature verification succeeds exactly when the verifying key equals it). -/
structure Jwt where
  payload : JwtPayload
  signedWith : String
deriving Repr, DecidableEq

/-- `jose.jwt.decode(token, key, algorithms=[ALGORITHM])` at time `now`:
returns the payload when the signature verifies and the token is not
expired (jose rejects exactly when `exp < now`), and fails otherwise. -/
def jwt_decode (token : Jwt) (key : String) (now : Int) : Option JwtPayload :=
  if token.signedWith == key && decide (now ≤ token.payload.exp) then
    some token.payload
  else none

/-- `get_current_user` from `backend/utils/auth.py` (the validator imported
by the sweets routes): 401 when the header is absent or decoding fails,
otherwise the decoded payload is returned as the identity, with no check
that a subject claim is present. Header parsing is abstracted: the header
either carries a token or is absent. -/
def utils_get_current_user (authorization : Option Jwt) (key : String)
    (now : Int) : ApiResult JwtPayload :=
  match authorization with
  | none => .err ⟨401, "No token provided"⟩
  | some token =>
    match jwt_decode token key now with
    | none => .err ⟨401, "Invalid token"⟩
    | some payload => .ok payload

/-- `get_current_user` from `backend/routes/auth.py` (lines 72-115): decode
the token, answer 401 when the `sub` claim is `None`, otherwise return the
email with the role (defaulting to `"user"`). -/
def routes_get_current_user (token : Option Jwt) (key : String) (now : Int) :
    ApiResult (String × String) :=
  match token with
  | none => .err ⟨401, "Not authenticated"⟩
  | some t =>
    match jwt_decode t key now with
    | none => .err ⟨401, "Invalid token"⟩
    | some payload =>
      match payload.sub with
      | none => .err ⟨401, "Invalid token"⟩
      | some email => .ok (email, payload.role.getD "user")

/-- The response of `register`: email and id always, role only on the
creating call (the duplicate branch returns a dict without a role key). -/
structure RegisterResponse where
  email : String
  id : String
  role : Option String
deriving Repr, DecidableEq

/-- `register` (lines 143-189), fallback store: if a user with the email
exists, answer their identity and change nothing; otherwise hash the
password (the hasher is external, hence a parameter), grant `"admin"`
exactly when the admin key is `"admin123"`, and append the new record with
`_id = "user_" + str(len(_fake_users))`. -/
def register (hash : String → String) (s : List UserRec)
    (email password : String) (admin_key : Option String) :
    RegisterResponse × List UserRec :=
  match s.find? (fun u => u.email == email) with
  | some existing => (⟨existing.email, existing.oid, none⟩, s)
  | none =>
    let hashed_password := hash password
    let role := if admin_key == some "admin123" then "admin" else "user"
    let n := s.length
    let newUser : UserRec := ⟨email, hashed_password, role, "user_" ++ toString n⟩
    (⟨email, newUser.oid, some role⟩, s ++ [newUser])

/-- The success payload of `login`: token, email and role. -/
structure LoginResponse where
  token : Jwt
  email : String
  role : String
deriving Repr, DecidableEq

/-- `login` (lines 205-273): look the email up (401 with
"Wrong email or password" when absent), verify the password against the
stored hash (same 401 on mismatch; the verifier is external, hence a
parameter), then issue a token whose claims are the user's email and role
and whose expiration is `now` plus `ACCESS_TOKEN_EXPIRE_MINUTES = 1440`
minutes, signed with `secret_key`. -/
def login (verify : String → String → Bool) (secret_key : String) (now : Int)
    (s : List UserRec) (email password : String) : ApiResult LoginResponse :=
  match s.find? (fun u => u.email == email) with
  | none => .err ⟨401, "Wrong email or password"⟩
  | some user =>
    if !(verify password user.hashed_password) then
      .err ⟨401, "Wrong email or password"⟩
    else
      let token_expiration := now + 1440 * 60
      let token : Jwt :=
        ⟨⟨some user.email, some user.role, token_expiration⟩, secret_key⟩
      .ok ⟨token, user.email, user.role⟩

/- ===================== Operation sequences over the fallback catalog ======= -/

/-- One catalog operation against the in-process fallback store; `delete`
and `restock` are performed as an admin, the roles being irrelevant to the
state reached otherwise. -/
inductive CatalogOp where
  | add (d : SweetData)
  | update (i : String) (d : SweetData)
  | delete (i : String)
  | purchase (i : String)
  | restock (i : String) (n : Int)
deriving Repr, DecidableEq

/-- The state reached by one fallback-store operation. -/
def applyOp (s : List SweetRec) : CatalogOp → List SweetRec
  | .add d => (add_sweet_fallback s d).2
  | .update i d => (update_sweet_fallback s i d).2
  | .delete i => (delete_sweet_fallback "admin" s i).2
  | .purchase i => (purchase_sweet s i).2
  | .restock i n => (restock_sweet_fallback "admin" s i n).2

/-- Run a sequence of fallback-store operations from a starting state. -/
def runOps (s : List SweetRec) (ops : List CatalogOp) : List SweetRec :=
  ops.foldl applyOp s

/-- Ids of the records in a store state. -/
def storeIds (s : List SweetRec) : List String :=
  s.map SweetRec.id

/- ===================== Decimal representation facts ======================== -/

/-- Numeric value of a decimal digit character. -/
def decDigit (c : Char) : Nat := c.toNat - 48

/-- Fold a decimal digit string (most significant first) onto `a`. -/
def decChars (a : Nat) : List Char → Nat
  | [] => a
  | c :: cs => decChars (10 * a + decDigit c) cs

lemma decChars_nil (a : Nat) : decChars a [] = a := rfl

lemma decChars_cons (a : Nat) (c : Char) (cs : List Char) :
    decChars a (c :: cs) = decChars (10 * a + decDigit c) cs := rfl

lemma toDigitsCore_succ (f n : Nat) (ds : List Char) :
    Nat.toDigitsCore 10 (f + 1) n ds =
      if n / 10 = 0 then Nat.digitChar (n % 10) :: ds
      else Nat.toDigitsCore 10 f (n / 10) (Nat.digitChar (n % 10) :: ds) := rfl

lemma digit_round (k : Nat) (h : k < 10) : decDigit (Nat.digitChar k) = k := by
  interval_cases k <;> rfl

lemma decChars_toDigitsCore :
    ∀ (f n : Nat) (ds : List Char) (a : Nat), n < 10 ^ (f + 1) →
    ∃ e, 0 < e ∧ decChars a (Nat.toDigitsCore 10 (f + 1) n ds) =
      decChars (a * 10 ^ e + n) ds := by
  intro f
  induction f with
  | zero =>
    intro n ds a h
    have hlt : n < 10 := by simpa using h
    have hn : n / 10 = 0 := Nat.div_eq_of_lt hlt
    refine ⟨1, Nat.one_pos, ?_⟩
    rw [toDigitsCore_succ, if_pos hn, decChars_cons,
      digit_round (n % 10) (Nat.mod_lt _ (by norm_num)), Nat.mod_eq_of_lt hlt]
    congr 1
    ring
  | succ f ih =>
    intro n ds a h
    by_cases hq : n / 10 = 0
    · have hlt : n < 10 := (Nat.div_eq_zero_iff (by norm_num)).1 hq
      refine ⟨1, Nat.one_pos, ?_⟩
      rw [toDigitsCore_succ, if_pos hq, decChars_cons,
        digit_round (n % 10) (Nat.mod_lt _ (by norm_num)), Nat.mod_eq_of_lt hlt]
      congr 1
      ring
    · have hq' : n / 10 < 10 ^ (f + 1) := by
        have hmul : n < 10 * 10 ^ (f + 1) := by
          calc n < 10 ^ (f + 1 + 1) := h
          _ = 10 * 10 ^ (f + 1) := by ring
        exact Nat.div_lt_of_lt_mul hmul
      obtain ⟨e, he, heq⟩ := ih (n / 10) (Nat.digitChar (n % 10) :: ds) a hq'
      refine ⟨e + 1, by omega, ?_⟩
      rw [toDigitsCore_succ, if_neg hq, heq, decChars_cons,
        digit_round (n % 10) (Nat.mod_lt _ (by norm_num))]
      congr 1
      have hmod := Nat.div_add_mod n 10
      ring_nf
      omega

lemma decChars_toDigits (n : Nat) : decChars 0 (Nat.toDigits 10 n) = n := by
  have h : n < 10 ^ (n + 1) := by
    calc n < 10 ^ n := Nat.lt_pow_self (by norm_num) n
    _ ≤ 10 ^ (n + 1) := Nat.pow_le_pow_right (by norm_num) (by omega)
  obtain ⟨e, _, heq⟩ := decChars_toDigitsCore n n [] 0 h
  rw [show Nat.toDigits 10 n = Nat.toDigitsCore 10 (n + 1) n [] from rfl, heq,
    decChars_nil]
  simp

/-- Read a decimal string back to the number it denotes. -/
def decString (s : String) : Nat := decChars 0 s.data

lemma decString_repr (n : Nat) : decString (Nat.repr n) = n := by
  show decChars 0 (Nat.toDigits 10 n).asString.data = n
  rw [show (Nat.toDigits 10 n).asString.data = Nat.toDigits 10 n from rfl]
  exact decChars_toDigits n

lemma natRepr_injective : Function.Injective Nat.repr := by
  intro m n h
  have h2 := congrArg decString h
  rwa [decString_repr, decString_repr] at h2

lemma toString_nat_injective (m n : Nat) (h : toString m = toString n) : m = n :=
  natRepr_injective h

/- ===================== Helper lemmas ====================================== -/

lemma modifyFirst_find? (p : SweetRec → Bool) (f : SweetRec → SweetRec)
    (l : List SweetRec) (x : SweetRec) (hx : l.find? p = some x)
    (hfx : p (f x) = true) :
    (modifyFirst p f l).find? p = some (f x) := by
  induction l with
  | nil => simp at hx
  | cons r rest ih =>
    by_cases hr : p r
    · rw [List.find?_cons_of_pos _ hr] at hx
      injection hx with hx
      subst hx
      rw [modifyFirst, if_pos hr, List.find?_cons_of_pos _ hfx]
    · rw [List.find?_cons_of_neg _ hr] at hx
      rw [modifyFirst, if_neg (by simpa using hr),
        List.find?_cons_of_neg _ hr]
      exact ih hx

lemma storeIds_modifyFirst (p : SweetRec → Bool) (f : SweetRec → SweetRec)
    (hf : ∀ r, (f r).id = r.id) (l : List SweetRec) :
    storeIds (modifyFirst p f l) = storeIds l := by
  induction l with
  | nil => rfl
  | cons r rest ih =>
    by_cases hr : p r
    · simp [modifyFirst, if_pos hr, storeIds, hf]
    · simpa [modifyFirst, if_neg hr, storeIds] using ih

lemma mem_modifyFirst (p : SweetRec → Bool) (f : SweetRec → SweetRec)
    (l : List SweetRec) (r : SweetRec) (hr : r ∈ modifyFirst p f l) :
    r ∈ l ∨ ∃ x, l.find? p = some x ∧ r = f x := by
  induction l with
  | nil => simp [modifyFirst] at hr
  | cons y rest ih =>
    by_cases hy : p y
    · rw [modifyFirst, if_pos hy] at hr
      rcases List.mem_cons.1 hr with h | h
      · exact Or.inr ⟨y, by rw [List.find?_cons_of_pos _ hy], h⟩
      · exact Or.inl (List.mem_cons_of_mem _ h)
    · rw [modifyFirst, if_neg (by simpa using hy)] at hr
      rcases List.mem_cons.1 hr with h | h
      · exact Or.inl (h ▸ List.mem_cons_self _ _)
      · rcases ih h with h | ⟨x, hx, hfx⟩
        · exact Or.inl (List.mem_cons_of_mem _ h)
        · exact Or.inr ⟨x, by rw [List.find?_cons_of_neg _ hy]; exact hx, hfx⟩

lemma modifyFirst_length (p : SweetRec → Bool) (f : SweetRec → SweetRec)
    (l : List SweetRec) : (modifyFirst p f l).length = l.length := by
  induction l with
  | nil => rfl
  | cons r rest ih =>
    by_cases hr : p r
    · simp [modifyFirst, if_pos hr]
    · simp [modifyFirst, if_neg hr, ih]

/- ===================== Claim theorems ===================================== -/

/-- C1: for every store state and id, `purchase_sweet` answers 404 when the
id matches no product; when it matches a product with quantity above 0 it
succeeds and decrements that quantity by exactly 1, leaving the store
otherwise keyed the same; when the matched quantity is at most 0 it answers
400 "Out of stock" and leaves the store unchanged; and starting from
quantity 1, one purchase succeeds and a second purchase of the same id
fails out of stock, so the quantity never goes below 0 via purchase. -/
theorem purchase_sweet_correct (s : List SweetRec) (i : String) :
    (s.find? (fun r => r.id == i) = none →
      purchase_sweet s i = (.err ⟨404, "Sweet not found"⟩, s)) ∧
    (∀ sw, s.find? (fun r => r.id == i) = some sw →
      (sw.quantity ≤ 0 → purchase_sweet s i = (.err ⟨400, "Out of stock"⟩, s)) ∧
      (0 < sw.quantity →
        (purchase_sweet s i).1 = .ok "Purchased successfully" ∧
        (purchase_sweet s i).2.find? (fun r => r.id == i) =
          some { sw with quantity := sw.quantity - 1 } ∧
        (sw.quantity = 1 →
          purchase_sweet (purchase_sweet s i).2 i =
            (.err ⟨400, "Out of stock"⟩, (purchase_sweet s i).2)))) := by
  constructor
  · intro h
    simp [purchase_sweet, h]
  · intro sw hsw
    have hpsw : (sw.id == i) = true := by
      simpa using List.find?_some hsw
    constructor
    · intro hq
      simp [purchase_sweet, hsw, hq]
    · intro hq
      have hq' : ¬ sw.quantity ≤ 0 := by omega
      have hfind2 : (modifyFirst (fun r => r.id == i)
          (fun r => { r with quantity := r.quantity - 1 }) s).find?
            (fun r => r.id == i) = some { sw with quantity := sw.quantity - 1 } :=
        modifyFirst_find? _ _ s sw hsw hpsw
      refine ⟨?_, ?_, ?_⟩
      · simp [purchase_sweet, hsw, hq']
      · simp only [purchase_sweet, hsw, if_neg hq']
        exact hfind2
      · intro hq1
        have hpost : (purchase_sweet s i).2 = modifyFirst (fun r => r.id == i)
            (fun r => { r with quantity := r.quantity - 1 }) s := by
          simp [purchase_sweet, hsw, hq']
        rw [hpost]
        simp [purchase_sweet, hfind2, hq1]

/-- Witness for C1 at a concrete one-record store with quantity 1. -/
theorem purchase_sweet_correct_witness :
    (purchase_sweet [⟨"Ladoo", "Indian", 50, 1, "img", "1"⟩] "1").1 =
        .ok "Purchased successfully" ∧
    purchase_sweet (purchase_sweet [⟨"Ladoo", "Indian", 50, 1, "img", "1"⟩] "1").2 "1" =
      (.err ⟨400, "Out of stock"⟩,
       (purchase_sweet [⟨"Ladoo", "Indian", 50, 1, "img", "1"⟩] "1").2) := by
  have h := ((purchase_sweet_correct [⟨"Ladoo", "Indian", 50, 1, "img", "1"⟩] "1").2
    ⟨"Ladoo", "Indian", 50, 1, "img", "1"⟩ (by decide)).2 (by decide)
  exact ⟨h.1, h.2.2 (by decide)⟩

/-- C2 (failing-input evaluation): on the primary-store path, restocking as
an admin with a positive amount and a valid ObjectId that matches no
document does not answer 404 — the zero-row `$inc` update is not checked,
so the call reports success and the store is unchanged. -/
theorem restock_mongo_missing_id_silently_succeeds :
    restock_sweet_mongo "admin"
        [⟨"Ladoo", "Indian", 50, 5, "img", "507f191e810c19729de860ea"⟩]
        "507f1f77bcf86cd799439011" 5 =
      (.ok "Restocked 5 units successfully",
       [⟨"Ladoo", "Indian", 50, 5, "img", "507f191e810c19729de860ea"⟩]) := by
  decide

/-- C3 (failing-input evaluation): the validator actually imported by the
sweets routes (`backend/utils/auth.py`) accepts a correctly signed,
unexpired token whose `sub` claim is absent and returns the payload as the
caller identity instead of failing with 401. -/
theorem utils_validator_accepts_missing_sub :
    utils_get_current_user
        (some ⟨⟨none, some "user", 86400⟩, "super-secret-key"⟩)
        "super-secret-key" 0 =
      .ok ⟨none, some "user", 86400⟩ := by
  decide

/-- The dormant validator in `backend/routes/auth.py` does reject a token
with no subject claim, for every token, key and time. -/
theorem routes_validator_rejects_missing_sub (t : Jwt) (key : String)
    (now : Int) (hsub : t.payload.sub = none) :
    routes_get_current_user (some t) key now = .err ⟨401, "Not authenticated"⟩ ∨
    routes_get_current_user (some t) key now = .err ⟨401, "Invalid token"⟩ := by
  right
  cases hdec : jwt_decode t key now with
  | none => simp [routes_get_current_user, hdec]
  | some payload =>
    have hps : payload = t.payload := by
      unfold jwt_decode at hdec
      by_cases hc : (t.signedWith == key && decide (now ≤ t.payload.exp)) = true
      · rw [if_pos hc] at hdec
        injection hdec with h
        exact h.symm
      · rw [if_neg hc] at hdec
        cases hdec
    subst hps
    simp [routes_get_current_user, hdec, hsub]

/-- C4 (failing-input evaluation): on the primary-store path, updating an
existing record with data identical to its current fields gives a zero
`modified_count`, and the handler answers 404 "Sweet not found" even though
a record does match the id — the claim says such an update succeeds. -/
theorem update_mongo_matched_but_unmodified_404 :
    update_sweet_mongo
        [⟨"Ladoo", "Indian", 50, 5, "img", "507f191e810c19729de860ea"⟩]
        "507f191e810c19729de860ea"
        ⟨"Ladoo", "Indian", 50, 5, "img"⟩ =
      (.err ⟨404, "Sweet not found"⟩,
       [⟨"Ladoo", "Indian", 50, 5, "img", "507f191e810c19729de860ea"⟩]) := by
  decide

/-- C5 counterexample: a successful update replaces the stored record's
`name` with `newData.name` (the full model dump is written), so the name is
not left unchanged as the claim states. -/
theorem update_sweet_replaces_name_cex :
    ((update_sweet_fallback [⟨"Ladoo", "Indian", 50, 5, "img", "1"⟩] "1"
        ⟨"Barfi", "Western", 60, 7, "img2"⟩).1 = .ok "Updated successfully") ∧
    (update_sweet_fallback [⟨"Ladoo", "Indian", 50, 5, "img", "1"⟩] "1"
        ⟨"Barfi", "Western", 60, 7, "img2"⟩).2 =
      [⟨"Barfi", "Western", 60, 7, "img2", "1"⟩] := by
  decide

/-- C5 amended: a successful Update(id, newData) replaces the name,
category, price, quantity and image fields of the matched record with those
of newData; the record's id is unchanged, the multiset of stored ids is
unchanged, and every record of the post-state is either an untouched record
of the pre-state or the rewritten matched record. -/
theorem update_sweet_replaces_model_fields (s : List SweetRec) (i : String)
    (d : SweetData) (sw : SweetRec)
    (h : s.find? (fun r => r.id == i) = some sw) :
    (update_sweet_fallback s i d).1 = .ok "Updated successfully" ∧
    (update_sweet_fallback s i d).2.find? (fun r => r.id == i) =
      some (applyData d sw) ∧
    applyData d sw =
      { name := d.name, category := d.category, price := d.price,
        quantity := d.quantity, image_url := d.image_url, id := sw.id } ∧
    storeIds (update_sweet_fallback s i d).2 = storeIds s ∧
    ∀ r ∈ (update_sweet_fallback s i d).2, r ∈ s ∨ r = applyData d sw := by
  have hpsw : (sw.id == i) = true := by
    simpa using List.find?_some h
  have hpost : (update_sweet_fallback s i d).2 =
      modifyFirst (fun r => r.id == i) (applyData d) s := by
    simp [update_sweet_fallback, h]
  refine ⟨?_, ?_, rfl, ?_, ?_⟩
  · simp [update_sweet_fallback, h]
  · rw [hpost]
    exact modifyFirst_find? _ _ s sw h hpsw
  · rw [hpost]
    exact storeIds_modifyFirst (fun r => r.id == i) (applyData d)
      (fun r => rfl) s
  · intro r hr
    rw [hpost] at hr
    rcases mem_modifyFirst _ _ s r hr with hm | ⟨x, hx, hfx⟩
    · exact Or.inl hm
    · rw [hx] at h
      injection h with h
      subst h
      exact Or.inr hfx

/-- Witness for C5 amended at a concrete one-record store. -/
theorem update_sweet_replaces_model_fields_witness :
    (update_sweet_fallback [⟨"Ladoo", "Indian", 50, 5, "img", "1"⟩] "1"
        ⟨"Barfi", "Western", 60, 7, "img2"⟩).1 = .ok "Updated successfully" ∧
    (update_sweet_fallback [⟨"Ladoo", "Indian", 50, 5, "img", "1"⟩] "1"
        ⟨"Barfi", "Western", 60, 7, "img2"⟩).2.find? (fun r => r.id == "1") =
      some (applyData ⟨"Barfi", "Western", 60, 7, "img2"⟩
        ⟨"Ladoo", "Indian", 50, 5, "img", "1"⟩) := by
  have h := update_sweet_replaces_model_fields
    [⟨"Ladoo", "Indian", 50, 5, "img", "1"⟩] "1"
    ⟨"Barfi", "Western", 60, 7, "img2"⟩
    ⟨"Ladoo", "Indian", 50, 5, "img", "1"⟩ (by decide)
  exact ⟨h.1, h.2.1⟩

/-- C6: registering an email that already has a record creates no new
record, leaves the store (hence the stored hash) unchanged, and answers the
existing record's identity; in particular after a fresh registration, a
second registration of the same email with any password and admin key
returns the same email and id as the first and leaves the store exactly as
the first call left it. -/
theorem register_idempotent (hash : String → String) (s : List UserRec)
    (email p1 p2 : String) (k1 k2 : Option String) :
    (∀ u, s.find? (fun v => v.email == email) = some u →
      register hash s email p2 k2 = (⟨u.email, u.oid, none⟩, s)) ∧
    (s.find? (fun v => v.email == email) = none →
      (register hash (register hash s email p1 k1).2 email p2 k2).2 =
          (register hash s email p1 k1).2 ∧
      (register hash (register hash s email p1 k1).2 email p2 k2).1.email =
          (register hash s email p1 k1).1.email ∧
      (register hash (register hash s email p1 k1).2 email p2 k2).1.id =
          (register hash s email p1 k1).1.id) := by
  constructor
  · intro u hu
    simp [register, hu]
  · intro hnone
    obtain ⟨u, hpost, huem, huid⟩ :
        ∃ u, (register hash s email p1 k1).2 = s ++ [u] ∧
          u.email = email ∧ u.oid = (register hash s email p1 k1).1.id := by
      refine ⟨⟨email, hash p1,
        if k1 == some "admin123" then "admin" else "user",
        "user_" ++ toString s.length⟩, ?_, rfl, ?_⟩
      · simp [register, hnone]
      · simp [register, hnone]
    have hfind2 : (s ++ [u]).find? (fun v => v.email == email) = some u := by
      rw [List.find?_append, hnone]
      simp [huem]
    have hdup : register hash (s ++ [u]) email p2 k2 =
        (⟨u.email, u.oid, none⟩, s ++ [u]) := by
      simp [register, hfind2]
    rw [hpost, hdup]
    refine ⟨rfl, ?_, huid⟩
    simp [register, hnone, huem]

/-- Witness for C6: registering the same email twice on a concrete store. -/
theorem register_idempotent_witness :
    (register (fun p => p ++ "#h")
        (register (fun p => p ++ "#h") [] "a@b.c" "pw1" none).2
        "a@b.c" "pw2" (some "admin123")).2 =
      (register (fun p => p ++ "#h") [] "a@b.c" "pw1" none).2 ∧
    (register (fun p => p ++ "#h")
        (register (fun p => p ++ "#h") [] "a@b.c" "pw1" none).2
        "a@b.c" "pw2" (some "admin123")).1.id =
      (register (fun p => p ++ "#h") [] "a@b.c" "pw1" none).1.id := by
  have h := (register_idempotent (fun p => p ++ "#h") [] "a@b.c" "pw1" "pw2"
    none (some "admin123")).2 (by decide)
  exact ⟨h.1, h.2.2⟩

/-- C7: a login attempt whose email matches no user and a login attempt
whose email matches a user but whose password fails verification produce
the same failure: status 401 with the message "Wrong email or password",
identical in both cases. -/
theorem login_no_enumeration (verify : String → String → Bool)
    (secret_key : String) (now : Int) (s : List UserRec)
    (ea pa eb pb : String) (u : UserRec)
    (ha : s.find? (fun v => v.email == ea) = none)
    (hb : s.find? (fun v => v.email == eb) = some u)
    (hv : verify pb u.hashed_password = false) :
    login verify secret_key now s ea pa = .err ⟨401, "Wrong email or password"⟩ ∧
    login verify secret_key now s eb pb = .err ⟨401, "Wrong email or password"⟩ ∧
    login verify secret_key now s ea pa = login verify secret_key now s eb pb := by
  have h1 : login verify secret_key now s ea pa =
      .err ⟨401, "Wrong email or password"⟩ := by
    simp [login, ha]
  have h2 : login verify secret_key now s eb pb =
      .err ⟨401, "Wrong email or password"⟩ := by
    simp [login, hb, hv]
  exact ⟨h1, h2, h1.trans h2.symm⟩

/-- Witness for C7 on a concrete store: unknown email vs wrong password. -/
theorem login_no_enumeration_witness :
    login (fun p h => p == h) "super-secret-key" 0
        [⟨"a@b.c", "pw#h", "user", "user_0"⟩] "z@z.z" "whatever" =
      .err ⟨401, "Wrong email or password"⟩ ∧
    login (fun p h => p == h) "super-secret-key" 0
        [⟨"a@b.c", "pw#h", "user", "user_0"⟩] "a@b.c" "wrong" =
      .err ⟨401, "Wrong email or password"⟩ := by
  have h := login_no_enumeration (fun p h => p == h) "super-secret-key" 0
    [⟨"a@b.c", "pw#h", "user", "user_0"⟩] "z@z.z" "whatever" "a@b.c" "wrong"
    ⟨"a@b.c", "pw#h", "user", "user_0"⟩ (by decide) (by decide) (by decide)
  exact ⟨h.1, h.2.1⟩

lemma listOccurs_nil_needle (hay : List Char) : listOccurs [] hay = true := by
  cases hay <;> rfl

lemma strOccurs_left_empty (hay : String) : strOccurs "" hay = true :=
  listOccurs_nil_needle hay.data

lemma toLower_empty : ("" : String).toLower = "" := by
  show String.map Char.toLower "" = ""
  rw [String.map_eq]
  rfl

lemma name_match_eq (n : String) (r : SweetRec) :
    (if n == "" then true else strOccurs n.toLower r.name.toLower) =
      strOccurs n.toLower r.name.toLower := by
  by_cases hn : n == ""
  · have hn' : n = "" := eq_of_beq hn
    subst hn'
    rw [if_pos hn, toLower_empty, strOccurs_left_empty]
  · rw [if_neg hn]

/-- The search predicate as the spec states it (§4.4 Search): all filters
optional and conjunctive; `name` a case-insensitive substring match,
`category` an exact match, price bounds inclusive. Written from the spec's
words, to be compared with the source-derived `search_sweets_fallback`. -/
def searchSpecPred (name category : Option String) (mn mx : Option Rat)
    (r : SweetRec) : Bool :=
  (match name with
    | none => true
    | some n => strOccurs n.toLower r.name.toLower) &&
  (match category with
    | none => true
    | some c => r.category == c) &&
  ((match mn with
    | none => true
    | some v => decide (v ≤ r.price)) &&
   (match mx with
    | none => true
    | some v => decide (r.price ≤ v)))

/-- C8 counterexample: on the primary-store path, a `max_price` of 0 is
truthiness-dropped from the query, so Search returns a record whose price
(120) violates the bound; the fallback path keeps the bound and returns
nothing. The name-regex parameter is irrelevant here (no name filter). -/
theorem search_mongo_drops_zero_price_bound_cex :
    search_sweets_mongo (fun _ _ => false)
        [⟨"Ladoo", "Indian", 120, 10, "img", "a"⟩] none none none (some 0) =
      [⟨"Ladoo", "Indian", 120, 10, "img", "a"⟩] ∧
    ¬ ((120 : Rat) ≤ 0) ∧
    search_sweets_fallback
        [⟨"Ladoo", "Indian", 120, 10, "img", "a"⟩] none none none (some 0) =
      [] := by
  refine ⟨by decide, by norm_num, by decide⟩

/-- C8 amended: in the in-process fallback store, Search returns exactly
the records satisfying the conjunction of the supplied filters — name as a
case-insensitive substring match, category as an exact match, inclusive
price bounds — and with no filters supplied it returns the same records as
List. (On the primary-store path a price bound equal to 0 is dropped from
the query, per the counterexample.) -/
theorem search_sweets_fallback_exact (s : List SweetRec)
    (name category : Option String) (mn mx : Option Rat) :
    search_sweets_fallback s name category mn mx =
      s.filter (searchSpecPred name category mn mx) ∧
    search_sweets_fallback s none none none none = list_sweets_fallback s := by
  constructor
  · apply List.filter_congr
    intro r _
    cases name with
    | none => rfl
    | some n => simp only [searchSpecPred, name_match_eq]
  · simp [search_sweets_fallback, list_sweets_fallback]

/-- C9: a token issued by a successful login carries exactly the user's
email as subject, exactly the user's role, and an expiration of issuance
time plus 1440 minutes; validated immediately with the same signing secret
it yields exactly those claims, and once the expiration has passed,
validation fails with 401. -/
theorem login_token_roundtrip (verify : String → String → Bool)
    (secret_key : String) (now : Int) (s : List UserRec)
    (email password : String) (u : UserRec)
    (hfind : s.find? (fun v => v.email == email) = some u)
    (hv : verify password u.hashed_password = true) :
    login verify secret_key now s email password =
      .ok ⟨⟨⟨some u.email, some u.role, now + 1440 * 60⟩, secret_key⟩,
        u.email, u.role⟩ ∧
    utils_get_current_user
        (some ⟨⟨some u.email, some u.role, now + 1440 * 60⟩, secret_key⟩)
        secret_key now =
      .ok ⟨some u.email, some u.role, now + 1440 * 60⟩ ∧
    ∀ t : Int, now + 1440 * 60 < t →
      utils_get_current_user
          (some ⟨⟨some u.email, some u.role, now + 1440 * 60⟩, secret_key⟩)
          secret_key t =
        .err ⟨401, "Invalid token"⟩ := by
  refine ⟨?_, ?_, ?_⟩
  · simp [login, hfind, hv]
  · have h1 : now ≤ now + 1440 * 60 := by omega
    simp [utils_get_current_user, jwt_decode, h1]
  · intro t ht
    have h2 : ¬ (t ≤ now + 86400) := by omega
    simp [utils_get_current_user, jwt_decode, h2]

/-- Witness for C9 on a concrete store, validated at issuance time 0 and
again one second after the expiration. -/
theorem login_token_roundtrip_witness :
    login (fun p h => p == h) "super-secret-key" 0
        [⟨"a@b.c", "pw", "admin", "user_0"⟩] "a@b.c" "pw" =
      .ok ⟨⟨⟨some "a@b.c", some "admin", 86400⟩, "super-secret-key"⟩,
        "a@b.c", "admin"⟩ ∧
    utils_get_current_user
        (some ⟨⟨some "a@b.c", some "admin", 86400⟩, "super-secret-key"⟩)
        "super-secret-key" 86401 =
      .err ⟨401, "Invalid token"⟩ := by
  have h := login_token_roundtrip (fun p h => p == h) "super-secret-key" 0
    [⟨"a@b.c", "pw", "admin", "user_0"⟩] "a@b.c" "pw"
    ⟨"a@b.c", "pw", "admin", "user_0"⟩ (by decide) (by decide)
  exact ⟨h.1, h.2.2 86401 (by norm_num)⟩

/-- Whether a catalog operation is a delete. -/
def CatalogOp.isDelete : CatalogOp → Bool
  | .delete _ => true
  | _ => false

/-- Canonical id layout of the fallback store: the k-th record (0-based)
carries id `str(k + 1)`. This is what every delete-free run maintains. -/
def idsCanonical (s : List SweetRec) : Prop :=
  storeIds s = (List.range s.length).map (fun k => toString (k + 1))

lemma idsCanonical_nil : idsCanonical [] := rfl

lemma idsCanonical_of_modifyFirst (s : List SweetRec) (p : SweetRec → Bool)
    (f : SweetRec → SweetRec) (hf : ∀ r, (f r).id = r.id)
    (h : idsCanonical s) : idsCanonical (modifyFirst p f s) := by
  unfold idsCanonical at h ⊢
  rw [storeIds_modifyFirst p f hf s, modifyFirst_length p f s]
  exact h

lemma idsCanonical_append_new (s : List SweetRec) (x : SweetRec)
    (hx : x.id = toString (s.length + 1)) (h : idsCanonical s) :
    idsCanonical (s ++ [x]) := by
  unfold idsCanonical storeIds at h ⊢
  rw [List.map_append, List.length_append, h]
  simp [List.range_succ, hx]

lemma idsCanonical_applyOp (s : List SweetRec) (op : CatalogOp)
    (hop : op.isDelete = false) (h : idsCanonical s) :
    idsCanonical (applyOp s op) := by
  cases op with
  | add d =>
    show idsCanonical (add_sweet_fallback s d).2
    cases hfind : s.find? (fun r => r.name == d.name) with
    | some x =>
      have : (add_sweet_fallback s d).2 = s := by
        simp [add_sweet_fallback, hfind]
      rw [this]
      exact h
    | none =>
      have hpost : (add_sweet_fallback s d).2 = s ++
          [{ name := d.name, category := d.category, price := d.price,
             quantity := d.quantity, image_url := d.image_url,
             id := toString (s.length + 1) }] := by
        simp [add_sweet_fallback, hfind]
      rw [hpost]
      exact idsCanonical_append_new s _ rfl h
  | update i d =>
    show idsCanonical (update_sweet_fallback s i d).2
    cases hfind : s.find? (fun r => r.id == i) with
    | none =>
      have : (update_sweet_fallback s i d).2 = s := by
        simp [update_sweet_fallback, hfind]
      rw [this]
      exact h
    | some x =>
      have : (update_sweet_fallback s i d).2 =
          modifyFirst (fun r => r.id == i) (applyData d) s := by
        simp [update_sweet_fallback, hfind]
      rw [this]
      exact idsCanonical_of_modifyFirst s _ _ (fun r => rfl) h
  | delete i => simp [CatalogOp.isDelete] at hop
  | purchase i =>
    show idsCanonical (purchase_sweet s i).2
    cases hfind : s.find? (fun r => r.id == i) with
    | none =>
      have : (purchase_sweet s i).2 = s := by
        simp [purchase_sweet, hfind]
      rw [this]
      exact h
    | some x =>
      by_cases hq : x.quantity ≤ 0
      · have : (purchase_sweet s i).2 = s := by
          simp [purchase_sweet, hfind, hq]
        rw [this]
        exact h
      · have : (purchase_sweet s i).2 = modifyFirst (fun r => r.id == i)
            (fun r => { r with quantity := r.quantity - 1 }) s := by
          simp [purchase_sweet, hfind, hq]
        rw [this]
        exact idsCanonical_of_modifyFirst s _ _ (fun r => rfl) h
  | restock i n =>
    show idsCanonical (restock_sweet_fallback "admin" s i n).2
    by_cases hn : n ≤ 0
    · have : (restock_sweet_fallback "admin" s i n).2 = s := by
        simp [restock_sweet_fallback, hn]
      rw [this]
      exact h
    · cases hfind : s.find? (fun r => r.id == i) with
      | none =>
        have : (restock_sweet_fallback "admin" s i n).2 = s := by
          simp [restock_sweet_fallback, hn, hfind]
        rw [this]
        exact h
      | some x =>
        have : (restock_sweet_fallback "admin" s i n).2 =
            modifyFirst (fun r => r.id == i)
              (fun r => { r with quantity := r.quantity + n }) s := by
          simp [restock_sweet_fallback, hn, hfind]
        rw [this]
        exact idsCanonical_of_modifyFirst s _ _ (fun r => rfl) h

lemma idsCanonical_runOps (ops : List CatalogOp) :
    ∀ s, (∀ op ∈ ops, op.isDelete = false) → idsCanonical s →
      idsCanonical (runOps s ops) := by
  induction ops with
  | nil =>
    intro s _ h
    exact h
  | cons op rest ih =>
    intro s hall h
    show idsCanonical (List.foldl applyOp s (op :: rest))
    rw [List.foldl_cons]
    exact ih (applyOp s op)
      (fun o ho => hall o (List.mem_cons_of_mem _ ho))
      (idsCanonical_applyOp s op (hall op (List.mem_cons_self _ _)) h)

/-- C10 counterexample: add, add, delete the first record, add again — the
final fallback store holds two records both carrying id "2", because the
id of an added record is `str(len + 1)` over the current length, which
shrinks on delete. -/
theorem add_after_delete_reuses_id_cex :
    storeIds (runOps [] [.add ⟨"A", "c", 1, 1, "u"⟩, .add ⟨"B", "c", 1, 1, "u"⟩,
      .delete "1", .add ⟨"C", "c", 1, 1, "u"⟩]) = ["2", "2"] ∧
    ¬ (storeIds (runOps [] [.add ⟨"A", "c", 1, 1, "u"⟩,
      .add ⟨"B", "c", 1, 1, "u"⟩,
      .delete "1", .add ⟨"C", "c", 1, 1, "u"⟩])).Nodup := by
  decide

/-- C10 amended: in the in-process fallback catalog store, every state
reachable from the empty store by a delete-free sequence of add, update,
purchase and restock operations has pairwise-distinct product ids (the k-th
record carries id `str(k+1)`); an add performed after a delete, however,
can assign an id already held by a remaining product, per the
counterexample. -/
theorem fallback_ids_nodup_without_delete (ops : List CatalogOp)
    (h : ∀ op ∈ ops, op.isDelete = false) :
    (storeIds (runOps [] ops)).Nodup := by
  have hc : idsCanonical (runOps [] ops) :=
    idsCanonical_runOps ops [] h idsCanonical_nil
  rw [hc]
  refine List.Nodup.map ?_ (List.nodup_range _)
  intro a b hab
  have := toString_nat_injective (a + 1) (b + 1) hab
  omega

/-- Witness for C10 amended: a delete-free concrete run keeps ids distinct. -/
theorem fallback_ids_nodup_without_delete_witness :
    (storeIds (runOps [] [.add ⟨"A", "c", 1, 1, "u"⟩,
      .add ⟨"B", "c", 1, 1, "u"⟩, .purchase "1",
      .restock "2" 5])).Nodup :=
  fallback_ids_nodup_without_delete _ (by decide)
